import Mathlib

/-!
Verification of the QA-top-rank checker.

Shallow embedding of the core of `src/src/App.tsx`: the hostname
normalizer (`hostnameOf`), the domain matcher (`includesAny`), the
per-keyword result classifier (the scan loop inside `handleCheck`),
the sequential batch runner (`handleCheck`), and the CSV export
(`exportToCSV`).  Strings are modelled by Lean `String`
(a list of characters, matching JavaScript's sequence-of-code-points
view for the operations used here); the network is modelled by an
oracle giving the response of each `fetch` call in order.
-/

namespace QAChecker

/-- One organic search result, `type SerpItem` in the source. -/
structure SerpItem where
  link : String
  title : String
  snippet : String
deriving DecidableEq

/-- The status union of `type Result` in the source:
`"loading" | "ok" | "ng" | "error"`. -/
inductive Status where
  | loading
  | ok
  | ng
  | error
deriving DecidableEq

/-- The per-keyword outcome record, `type Result` in the source.
Optional fields of the TypeScript record become `Option`s. -/
structure Result where
  keyword : String
  status : Status
  rank : Option Nat
  domain : Option String
  serp : Option (List SerpItem)
  error : Option String
deriving DecidableEq

/-- Model of the browser's WHATWG `new URL(s).hostname` restricted to
absolute URLs of the form `scheme://[userinfo@]host[:port][/...]`:
returns the (lower-cased) host.  Strings the URL constructor rejects
give `none`; URLs with an opaque path and hence an empty hostname
(such as `mailto:`) are also mapped to `none`, which leaves the
observable output of `hostnameOf` unchanged (the empty hostname
normalizes to the empty string either way). -/
def urlHostname? (s : String) : Option String :=
  let cs := s.data
  let scheme := cs.takeWhile (fun c => c ≠ ':')
  match scheme, cs.drop scheme.length with
  | c :: tail, ':' :: '/' :: '/' :: rest =>
    if c.isAlpha && tail.all (fun d => d.isAlphanum || d == '+' || d == '-' || d == '.') then
      let auth := rest.takeWhile (fun d => d ≠ '/' && d ≠ '?' && d ≠ '#' && d ≠ '\\')
      let hostport := (auth.reverse.takeWhile (fun d => d ≠ '@')).reverse
      let host := hostport.takeWhile (fun d => d ≠ ':')
      let port := hostport.drop host.length
      if host ≠ [] &&
         host.all (fun d => !(d == ' ' || d == '<' || d == '>' || d == '^' || d == '|' || d.toNat < 32)) &&
         (port.drop 1).all (fun d => d.isDigit) then
        some (String.mk (host.map Char.toLower))
      else none
    else none
  | _, _ => none

/-- Source `hostname.replace(/^www\./, "")`: the anchored
regex strips one leading `www.` label when present. -/
def stripWww (h : String) : String :=
  if h.data.take 4 = "www.".data then String.mk (h.data.drop 4) else h

/-- Source `hostnameOf`:

```ts
function hostnameOf(url: string): string {
  try { return new URL(url).hostname.replace(/^www\./, ""); }
  catch { return ""; }
}
```

The `try`/`catch` becomes the `Option` match: the `catch` arm is the
`none` branch, so the function is total (never throws). -/
def hostnameOf (url : String) : String :=
  match urlHostname? url with
  | some h => stripWww h
  | none => ""

/-- Character-level model of JavaScript `s.endsWith(t)`. -/
def jsEndsWith (s t : String) : Bool :=
  t.data.isSuffixOf s.data

/-- Source `includesAny`:

```ts
function includesAny(host: string, patterns: string[]): boolean {
  return patterns.some((p) => host === p || host.endsWith("." + p));
}
``` -/
def includesAny (host : String) (patterns : List String) : Bool :=
  patterns.any (fun p => host == p || jsEndsWith host ("." ++ p))

/-- The result-scanning loop inside `handleCheck`:

```ts
for (let i = 0; i < items.length; i++) {
  const host = hostnameOf(items[i].link);
  if (includesAny(host, qaDomainList)) {
    found = { keyword, status: "ok", rank: i + 1, domain: host, serp: items };
    break;
  }
}
```

`i` is the accumulator; the returned pair is `(rank, domain)` of the
first matching item. -/
def scanSerp (pats : List String) : List SerpItem → Nat → Option (Nat × String)
  | [], _ => none
  | it :: rest, i =>
    let host := hostnameOf it.link
    if includesAny host pats then some (i + 1, host)
    else scanSerp pats rest (i + 1)

/-- The classification step of `handleCheck`: the scan loop followed by
`const result = found || { keyword, status: "ng", serp: items };`. -/
def classify (keyword : String) (items : List SerpItem) (pats : List String) : Result :=
  match scanSerp pats items 0 with
  | some (rank, host) =>
    { keyword := keyword, status := .ok, rank := some rank, domain := some host,
      serp := some items, error := none }
  | none =>
    { keyword := keyword, status := .ng, rank := none, domain := none,
      serp := some items, error := none }

/-- The configuration read by `handleCheck`: the component state
`apiKey`, `cx`, `qaDomainList` (already split and filtered) and
`searchRank`.  The spec calls this the batch configuration; it is
snapshotted for the whole run. -/
structure Config where
  apiKey : String
  cx : String
  qaDomainList : List String
  searchRank : Nat
deriving DecidableEq

/-- The observable outcome of one `fetch` of the search endpoint:
* `ok items` — a success response whose JSON has the given `items`
  (`data.items || []` makes a missing array the empty list);
* `httpErr status message` — a non-success response with the given
  HTTP status whose JSON error body carries
  `errorData.error.message` (`none` when the field is absent);
* `netErr msg` — the fetch itself (or reading the body) threw, with
  the exception message `msg`. -/
inductive FetchOutcome where
  | ok (items : List SerpItem)
  | httpErr (status : Nat) (message : Option String)
  | netErr (msg : String)
deriving DecidableEq

/-- JavaScript `a || b` for a string-or-undefined `a`: the fallback is
taken when `a` is `undefined` or the (falsy) empty string. -/
def jsOrElse (a : Option String) (fallback : String) : String :=
  match a with
  | some s => if s = "" then fallback else s
  | none => fallback

/-- The body of one iteration of the `for` loop in `handleCheck`: the
terminal `Result` the iteration stores for `keyword`.  The non-success
branch models
`throw new Error(errorData.error.message || "HTTP error! status: " + status)`
caught by the `catch` arm, which stores
`{ keyword, status: "error", error: e.message }`; a thrown fetch is
caught the same way; a success response is classified. -/
def resolveKeyword (cfg : Config) (keyword : String) (f : FetchOutcome) : Result :=
  match f with
  | .ok items => classify keyword items cfg.qaDomainList
  | .httpErr status message =>
    { keyword := keyword, status := .error, rank := none, domain := none,
      serp := none,
      error := some (jsOrElse message ("HTTP error! status: " ++ toString status)) }
  | .netErr msg =>
    { keyword := keyword, status := .error, rank := none, domain := none,
      serp := none, error := some msg }

/-- One entry of the initial state:
`{ keyword: k, status: "loading" }`. -/
def mkLoading (keyword : String) : Result :=
  { keyword := keyword, status := .loading, rank := none, domain := none,
    serp := none, error := none }

/-- Source `setResults(keywordList.map(k => ({ keyword: k, status: "loading" })))`. -/
def initialResults (kws : List String) : List Result :=
  kws.map mkLoading

/-- Source `setResults(prev => prev.map(r => r.keyword === keyword ? result : r))`:
replace every entry whose keyword text equals `keyword`. -/
def updateResults (results : List Result) (keyword : String) (r : Result) : List Result :=
  results.map (fun x => if x.keyword == keyword then r else x)

/-- Observable events of a run, in order: every `setResults` snapshot
and every network request issued (identified by its keyword; the URL
is built from the configuration and the keyword). -/
inductive Event where
  | setResults (rs : List Result)
  | fetchCall (keyword : String)
deriving DecidableEq

/-- The error of the `if (!apiKey || !cx)` guard, `ConfigurationError`
in the spec. -/
inductive BatchError where
  | configurationError
deriving DecidableEq

/-- The `for (const keyword of keywordList)` loop of `handleCheck`:
`i` numbers the network calls (the oracle's argument), `results` is
the current `results` state.  Returns the emitted events and the
final `results` state. -/
def runLoop (cfg : Config) (oracle : Nat → FetchOutcome) :
    List String → Nat → List Result → List Event × List Result
  | [], _, results => ([], results)
  | kw :: rest, i, results =>
    let r := resolveKeyword cfg kw (oracle i)
    let results2 := updateResults results kw r
    let tail := runLoop cfg oracle rest (i + 1) results2
    (.fetchCall kw :: .setResults results2 :: tail.1, tail.2)

/-- Source `handleCheck`: the credential guard (`alert` and
early return, before any state write or network call) becomes the
`ConfigurationError` branch; otherwise the up-front initialization of
every keyword to `loading` is emitted first, then the sequential
loop runs.  The event list interleaves state snapshots and requests
in program order. -/
def handleCheck (cfg : Config) (kws : List String) (oracle : Nat → FetchOutcome) :
    Except BatchError (List Event × List Result) :=
  if cfg.apiKey == "" || cfg.cx == "" then
    .error .configurationError
  else
    let init := initialResults kws
    let run := runLoop cfg oracle kws 0 init
    .ok (.setResults init :: run.1, run.2)

/-- Terminal statuses: everything except `loading` (`in-progress` in
the spec's vocabulary). -/
def terminal : Status → Bool
  | .loading => false
  | _ => true

/-- Projection used to read the network calls off an event list. -/
def fetchedKeyword : Event → Option String
  | .fetchCall k => some k
  | _ => none

/-- One data row of `exportToCSV`: the quoted keyword, the two-value
status label (`'ok'` maps to `◎ 狙い目`, everything else to
`✖ 見送り`), then `r.rank ?? ""` and `r.domain ?? ""`, joined
with commas. -/
def csvRow (r : Result) : String :=
  String.intercalate ","
    ["\"" ++ r.keyword ++ "\"",
     if r.status == .ok then "◎ 狙い目" else "✖ 見送り",
     (r.rank.map toString).getD "",
     r.domain.getD ""]

/-- The CSV text of `exportToCSV`:
`[headers.join(","), ...rows].join("\n")`. -/
def csvContent (rs : List Result) : String :=
  String.intercalate "\n"
    (String.intercalate "," ["Keyword", "Status", "Rank", "Domain"] :: rs.map csvRow)

/-- The download URI built by `exportToCSV` around the CSV text
(before `encodeURI`). -/
def csvDataUri (rs : List Result) : String :=
  "data:text/csv;charset=utf-8," ++ csvContent rs

/-- The guard on the export button:
`disabled={results.some(r => r.status === 'loading')}`. -/
def exportDisabled (rs : List Result) : Bool :=
  rs.any (fun r => r.status == .loading)

/-- Concrete valid configuration used by witnesses. -/
def cfgEx : Config :=
  { apiKey := "k", cx := "c", qaDomainList := ["qa.co"], searchRank := 10 }

/-- Concrete search-result items at hostnames `a.com`, `b.com`,
`qa.co` (the spec's Result Classifier example). -/
def exItems : List SerpItem :=
  [{ link := "https://a.com/", title := "A", snippet := "" },
   { link := "https://b.com/", title := "B", snippet := "" },
   { link := "https://qa.co/q/1", title := "Q", snippet := "" }]

/-- Oracle answering every request with an empty success response. -/
def oracleOk : Nat → FetchOutcome := fun _ => .ok []

/-- Oracle whose first response succeeds and whose second throws. -/
def oracleDup : Nat → FetchOutcome := fun i =>
  if i == 0 then .ok [] else .netErr "boom"

/-- Oracle failing exactly the second request with HTTP 403. -/
def oracleMixed : Nat → FetchOutcome := fun i =>
  if i == 1 then .httpErr 403 none else .ok []


/-- Concrete Outcome list used by the export witness: one matched,
one not-matched row. -/
def rsEx : List Result :=
  [{ keyword := "k1", status := .ok, rank := some 3, domain := some "qa.co",
     serp := some [], error := none },
   { keyword := "k2", status := .ng, rank := none, domain := none,
     serp := some [], error := none }]

/-! ## Helper lemmas -/

lemma mk_data (t : String) : String.mk t.data = t := by
  cases t
  rfl

lemma stripWww_www (t : String) : stripWww ("www." ++ t) = t := by
  unfold stripWww
  rw [String.data_append]
  have h1 : ("www.".data ++ t.data).take 4 = "www.".data := by
    rw [List.take_append_of_le_length (by decide)]
    rfl
  have h2 : ("www.".data ++ t.data).drop 4 = t.data := by
    rw [List.drop_append_of_le_length (by decide)]
    rfl
  rw [h1, h2, if_pos rfl, mk_data]

lemma www_split (t : String) : ("www.www." ++ t) = "www." ++ ("www." ++ t) := by
  refine String.ext ?_
  simp only [String.data_append]
  rw [← List.append_assoc]
  rfl

lemma hostnameOf_some (s h : String) (hs : urlHostname? s = some h) :
    hostnameOf s = stripWww h := by
  unfold hostnameOf
  rw [hs]

/-! ## Claims -/

/-- C6 counterexample: the Domain Matcher does not return `false` for
the empty hostname on every pattern list — the list holding the empty
pattern makes the empty hostname match exactly. -/
theorem domain_matcher_counterexample : includesAny "" [""] = true := by
  decide

/-- C6 (amended): the Domain Matcher returns `true` iff the hostname
equals some pattern exactly or ends with `"."` followed by some
pattern; and the empty hostname matches nothing provided no pattern
is itself the empty string. -/
theorem domain_matcher_spec (h : String) (P : List String) :
    (includesAny h P = true ↔ ∃ p ∈ P, h = p ∨ ("." ++ p).data.IsSuffix h.data) ∧
    ((∀ p ∈ P, p ≠ "") → includesAny "" P = false) := by
  constructor
  · simp only [includesAny, jsEndsWith, List.any_eq_true, Bool.or_eq_true, beq_iff_eq,
      List.isSuffixOf_iff_suffix]
  · intro hP
    simp only [includesAny, jsEndsWith, List.any_eq_false, Bool.or_eq_true, beq_iff_eq,
      List.isSuffixOf_iff_suffix, not_or]
    intro p hp
    constructor
    · exact fun he => hP p hp he.symm
    · intro hsuf
      have := List.suffix_nil.mp hsuf
      simp [String.data_append] at this

/-- Witness for C6: subdomain match holds concretely, and the empty
hostname does not match the (empty-pattern-free) list `["example.com"]`. -/
theorem domain_matcher_spec_witness :
    (includesAny "sub.example.com" ["example.com"] = true ↔
      ∃ p ∈ ["example.com"], "sub.example.com" = p ∨
        ("." ++ p).data.IsSuffix "sub.example.com".data) ∧
    includesAny "" ["example.com"] = false :=
  ⟨(domain_matcher_spec "sub.example.com" ["example.com"]).1,
   (domain_matcher_spec "" ["example.com"]).2 (by decide)⟩

/-- C7: the Hostname Normalizer is total (the `catch` arm makes it so);
on a parseable URL it returns the hostname with one leading `www.`
label stripped (and the hostname itself when it has no such label),
on an unparseable string it returns `""`; concretely,
`https://www.example.com/x` gives `example.com` and `not a url`
gives `""`. -/
theorem hostname_normalizer_spec :
    (∀ s t, urlHostname? s = some ("www." ++ t) → hostnameOf s = t) ∧
    (∀ s h, urlHostname? s = some h → (∀ t, h ≠ "www." ++ t) → hostnameOf s = h) ∧
    (∀ s, urlHostname? s = none → hostnameOf s = "") ∧
    hostnameOf "https://www.example.com/x" = "example.com" ∧
    hostnameOf "not a url" = "" := by
  refine ⟨?_, ?_, ?_, by decide, by decide⟩
  · intro s t hs
    rw [hostnameOf_some s _ hs, stripWww_www]
  · intro s h hs hno
    rw [hostnameOf_some s h hs]
    unfold stripWww
    by_cases hc : h.data.take 4 = "www.".data
    · exfalso
      apply hno (String.mk (h.data.drop 4))
      refine String.ext ?_
      rw [String.data_append]
      show h.data = "www.".data ++ h.data.drop 4
      conv_lhs => rw [← List.take_append_drop 4 h.data]
      rw [hc]
    · rw [if_neg hc]
  · intro s hs
    unfold hostnameOf
    rw [hs]

/-- Witness for C7: the stripping case applied at a concrete URL whose
hostname is `www.example.com`. -/
theorem hostname_normalizer_spec_witness :
    hostnameOf "https://www.example.com/x" = "example.com" :=
  hostname_normalizer_spec.1 "https://www.example.com/x" "example.com" (by decide)

/-- C10: only one leading `www.` label is stripped: a hostname of the
form `www.www.…` keeps its second `www.` label, concretely
`https://www.www.example.com/` normalizes to `www.example.com`, not
`example.com`. -/
theorem hostname_single_www_strip :
    hostnameOf "https://www.www.example.com/" = "www.example.com" ∧
    hostnameOf "https://www.www.example.com/" ≠ "example.com" ∧
    (∀ s t, urlHostname? s = some ("www.www." ++ t) →
      hostnameOf s = "www." ++ t) := by
  refine ⟨by decide, by decide, ?_⟩
  intro s t hs
  rw [www_split] at hs
  rw [hostnameOf_some s _ hs, stripWww_www]

/-- Witness for C10: the general single-strip statement applied at the
concrete double-`www` URL. -/
theorem hostname_single_www_strip_witness :
    hostnameOf "https://www.www.example.com/" = "www." ++ "example.com" :=
  hostname_single_www_strip.2.2 "https://www.www.example.com/" "example.com" (by decide)


lemma scanSerp_none (pats : List String) (items : List SerpItem) :
    ∀ n, scanSerp pats items n = none ↔
      ∀ it ∈ items, includesAny (hostnameOf it.link) pats = false := by
  induction items with
  | nil => intro n; simp [scanSerp]
  | cons x rest ih =>
    intro n
    by_cases hx : includesAny (hostnameOf x.link) pats
    · simp [scanSerp, hx]
    · simp only [Bool.not_eq_true] at hx
      simp [scanSerp, hx, ih (n + 1)]

lemma scanSerp_first (pats : List String) (items : List SerpItem) :
    ∀ (i n : Nat) (it : SerpItem),
      items[i]? = some it →
      includesAny (hostnameOf it.link) pats = true →
      (∀ j jt, j < i → items[j]? = some jt →
        includesAny (hostnameOf jt.link) pats = false) →
      scanSerp pats items n = some (n + i + 1, hostnameOf it.link) := by
  induction items with
  | nil => intro i n it h _ _; simp at h
  | cons x rest ih =>
    intro i n it h hm hfirst
    cases i with
    | zero =>
      simp only [List.getElem?_cons_zero, Option.some.injEq] at h
      subst h
      simp [scanSerp, hm]
    | succ i =>
      have hx : includesAny (hostnameOf x.link) pats = false :=
        hfirst 0 x (Nat.succ_pos i) (by simp)
      have ht := ih i (n + 1) it (by simpa using h) hm
        (fun j jt hj hjt => hfirst (j + 1) jt (by omega) (by simpa using hjt))
      have harith : n + 1 + i + 1 = n + (i + 1) + 1 := by omega
      rw [harith] at ht
      simp [scanSerp, hx, ht]

/-- C1: the Result Classifier keeps the full ordered item list in the
Outcome in every case; if position `i` (0-based) holds the first item
whose normalized hostname matches the pattern list, the Outcome is
`matched` (`ok`) with 1-based rank `i + 1` and that hostname as the
domain; if no item matches, the Outcome is `not-matched` (`ng`) with
no rank and no domain. -/
theorem classifier_first_match (kw : String) (items : List SerpItem) (pats : List String) :
    (classify kw items pats).serp = some items ∧
    (∀ i it, items[i]? = some it → includesAny (hostnameOf it.link) pats = true →
      (∀ j jt, j < i → items[j]? = some jt →
        includesAny (hostnameOf jt.link) pats = false) →
      classify kw items pats =
        { keyword := kw, status := .ok, rank := some (i + 1),
          domain := some (hostnameOf it.link), serp := some items, error := none }) ∧
    ((∀ it ∈ items, includesAny (hostnameOf it.link) pats = false) →
      classify kw items pats =
        { keyword := kw, status := .ng, rank := none, domain := none,
          serp := some items, error := none }) := by
  refine ⟨?_, ?_, ?_⟩
  · unfold classify
    rcases hscan : scanSerp pats items 0 with _ | ⟨r, h⟩ <;> simp
  · intro i it h hm hfirst
    have := scanSerp_first pats items i 0 it h hm hfirst
    rw [Nat.zero_add] at this
    unfold classify
    rw [this]
  · intro hall
    unfold classify
    rw [(scanSerp_none pats items 0).mpr hall]

/-- Witness for C1: on items at hostnames `a.com`, `b.com`, `qa.co`
with pattern list `["qa.co"]` the classifier reports a match at
position 3 with domain `qa.co`, retaining the full item list. -/
theorem classifier_first_match_witness :
    classify "kw" exItems ["qa.co"] =
      { keyword := "kw", status := .ok, rank := some (2 + 1),
        domain := some (hostnameOf "https://qa.co/q/1"), serp := some exItems,
        error := none } :=
  (classifier_first_match "kw" exItems ["qa.co"]).2.1 2
    { link := "https://qa.co/q/1", title := "Q", snippet := "" }
    (by decide) (by decide)
    (by
      intro j jt hj hjt
      interval_cases j
      · simp only [exItems, List.getElem?_cons_zero, Option.some.injEq] at hjt
        subst hjt
        decide
      · simp only [exItems, List.getElem?_cons_succ, List.getElem?_cons_zero,
          Option.some.injEq] at hjt
        subst hjt
        decide)
lemma updateResults_getElem? (results : List Result) (kw : String) (r : Result) (j : Nat) :
    (updateResults results kw r)[j]? =
      (results[j]?).map (fun x => if x.keyword == kw then r else x) := by
  simp [updateResults, List.getElem?_map]

lemma classify_keyword (kw : String) (items : List SerpItem) (pats : List String) :
    (classify kw items pats).keyword = kw := by
  unfold classify
  rcases hscan : scanSerp pats items 0 with _ | ⟨r, h⟩ <;> rfl

lemma classify_terminal (kw : String) (items : List SerpItem) (pats : List String) :
    terminal (classify kw items pats).status = true := by
  unfold classify
  rcases hscan : scanSerp pats items 0 with _ | ⟨r, h⟩ <;> rfl

lemma resolveKeyword_keyword (cfg : Config) (kw : String) (f : FetchOutcome) :
    (resolveKeyword cfg kw f).keyword = kw := by
  cases f with
  | ok items => exact classify_keyword kw items cfg.qaDomainList
  | httpErr s m => rfl
  | netErr m => rfl

lemma resolveKeyword_terminal (cfg : Config) (kw : String) (f : FetchOutcome) :
    terminal (resolveKeyword cfg kw f).status = true := by
  cases f with
  | ok items => exact classify_terminal kw items cfg.qaDomainList
  | httpErr s m => rfl
  | netErr m => rfl

lemma updateResults_invariant (results : List Result) (kw : String) (r0 : Result)
    (done : List String)
    (hr0 : terminal r0.status = true)
    (hInv : ∀ r ∈ results, r.keyword ∈ done → terminal r.status = true) :
    ∀ x ∈ updateResults results kw r0, x.keyword ∈ done ++ [kw] →
      terminal x.status = true := by
  intro x hx hxk
  rcases List.mem_map.mp hx with ⟨y, hy, hxy⟩
  by_cases hyk : (y.keyword == kw) = true
  · rw [if_pos hyk] at hxy
    rw [← hxy]
    exact hr0
  · rw [if_neg hyk] at hxy
    subst hxy
    rcases List.mem_append.mp hxk with hd | hk
    · exact hInv y hy hd
    · exfalso
      exact hyk (beq_iff_eq.mpr (List.mem_singleton.mp hk))

lemma runLoop_length (cfg : Config) (oracle : Nat → FetchOutcome) :
    ∀ (kws : List String) (i : Nat) (results : List Result),
      (runLoop cfg oracle kws i results).1.length = 2 * kws.length := by
  intro kws
  induction kws with
  | nil => intro i results; rfl
  | cons kw rest ih =>
    intro i results
    simp only [runLoop, List.length_cons, ih, List.length_cons]
    omega

lemma runLoop_fetch_at (cfg : Config) (oracle : Nat → FetchOutcome) :
    ∀ (kws : List String) (n : Nat) (kw : String) (i : Nat) (results : List Result),
      kws[n]? = some kw →
      (runLoop cfg oracle kws i results).1[2 * n]? = some (.fetchCall kw) := by
  intro kws
  induction kws with
  | nil => intro n kw i results h; simp at h
  | cons x rest ih =>
    intro n kw i results h
    cases n with
    | zero =>
      simp only [List.getElem?_cons_zero, Option.some.injEq] at h
      subst h
      rfl
    | succ n =>
      have h2 : 2 * (n + 1) = 2 * n + 1 + 1 := by ring
      simp only [runLoop, h2, List.getElem?_cons_succ]
      exact ih n kw (i + 1) _ (by simpa using h)

lemma runLoop_state_terminal (cfg : Config) (oracle : Nat → FetchOutcome) :
    ∀ (kws done : List String) (i : Nat) (results : List Result),
      (∀ r ∈ results, r.keyword ∈ done → terminal r.status = true) →
      ∀ (n : Nat) (s : List Result),
        (runLoop cfg oracle kws i results).1[2 * n + 1]? = some (.setResults s) →
        ∀ r ∈ s, r.keyword ∈ done ++ kws.take (n + 1) → terminal r.status = true := by
  intro kws
  induction kws with
  | nil => intro done i results hInv n s hev; simp [runLoop] at hev
  | cons kw rest ih =>
    intro done i results hInv n s hev r hr hmem
    have hInv2 := updateResults_invariant results kw
      (resolveKeyword cfg kw (oracle i)) done
      (resolveKeyword_terminal cfg kw (oracle i)) hInv
    cases n with
    | zero =>
      simp only [runLoop, Nat.mul_zero, Nat.zero_add, List.getElem?_cons_succ,
        List.getElem?_cons_zero, Option.some.injEq, Event.setResults.injEq] at hev
      subst hev
      apply hInv2 r hr
      simpa using hmem
    | succ n =>
      have h2 : 2 * (n + 1) + 1 = 2 * n + 1 + 1 + 1 := by ring
      rw [h2] at hev
      simp only [runLoop, List.getElem?_cons_succ] at hev
      have hmem2 : r.keyword ∈ (done ++ [kw]) ++ rest.take (n + 1) := by
        simpa [List.take_succ_cons, List.append_assoc] using hmem
      exact ih (done ++ [kw]) (i + 1) _ hInv2 n s hev r hr hmem2

/-- C2: with an empty API key or an empty search-engine identifier the
batch fails immediately with a `ConfigurationError`; the run produces
no events at all, i.e. no Outcome is created and no network call is
made. -/
theorem batch_config_error (cfg : Config) (kws : List String)
    (oracle : Nat → FetchOutcome) (h : cfg.apiKey = "" ∨ cfg.cx = "") :
    handleCheck cfg kws oracle = .error .configurationError := by
  unfold handleCheck
  rcases h with h | h <;> simp [h]

/-- Witness for C2: a concrete run with an empty API key. -/
theorem batch_config_error_witness :
    handleCheck { apiKey := "", cx := "c", qaDomainList := ["qa.co"], searchRank := 10 }
      ["k1", "k2"] oracleOk = .error .configurationError :=
  batch_config_error _ ["k1", "k2"] oracleOk (Or.inl rfl)

/-- C3: with valid credentials and a non-empty keyword list the batch
emits, as its first event, one `in-progress` (`loading`) Outcome per
keyword — all of them before any network call; the requests then go
out strictly in list order (the `n`-th request is event `2n+1`), and
the state snapshot emitted after the `n`-th request and before the
`(n+1)`-th request shows every already-processed keyword's Outcome in
a terminal state. -/
theorem batch_sequencing (cfg : Config) (kws : List String)
    (oracle : Nat → FetchOutcome)
    (hk : cfg.apiKey ≠ "") (hc : cfg.cx ≠ "") (_hne : kws ≠ []) :
    ∃ evs fin, handleCheck cfg kws oracle = .ok (evs, fin) ∧
      evs.head? = some (.setResults (initialResults kws)) ∧
      (initialResults kws).map Result.keyword = kws ∧
      (∀ r ∈ initialResults kws, r.status = .loading) ∧
      evs.length = 2 * kws.length + 1 ∧
      (∀ n kw, kws[n]? = some kw → evs[2 * n + 1]? = some (.fetchCall kw)) ∧
      (∀ n s, evs[2 * n + 2]? = some (.setResults s) →
        ∀ r ∈ s, r.keyword ∈ kws.take (n + 1) → terminal r.status = true) := by
  refine ⟨.setResults (initialResults kws) :: (runLoop cfg oracle kws 0 (initialResults kws)).1,
    (runLoop cfg oracle kws 0 (initialResults kws)).2, ?_, rfl, ?_, ?_, ?_, ?_, ?_⟩
  · unfold handleCheck
    rw [if_neg]
    simp [hk, hc]
  · rw [initialResults, List.map_map]
    have hcomp : Result.keyword ∘ mkLoading = id := by
      funext k
      rfl
    rw [hcomp, List.map_id]
  · intro r hr
    rcases List.mem_map.mp hr with ⟨k, _, hk2⟩
    rw [← hk2]
    rfl
  · simp [runLoop_length]
  · intro n kw h
    have := runLoop_fetch_at cfg oracle kws n kw 0 (initialResults kws) h
    simpa [List.getElem?_cons_succ] using this
  · intro n s hev r hr hmem
    have hev2 : (runLoop cfg oracle kws 0 (initialResults kws)).1[2 * n + 1]? =
        some (.setResults s) := by
      simpa [List.getElem?_cons_succ] using hev
    have hInv : ∀ r ∈ initialResults kws, r.keyword ∈ ([] : List String) →
        terminal r.status = true := by
      intro r _ hmem2
      simp at hmem2
    have := runLoop_state_terminal cfg oracle kws [] 0 (initialResults kws) hInv n s hev2 r hr
      (by simpa using hmem)
    exact this

/-- Witness for C3: the sequencing theorem applied to a concrete
three-keyword run. -/
theorem batch_sequencing_witness :
    ∃ evs fin, handleCheck cfgEx ["k1", "k2", "k3"] oracleOk = .ok (evs, fin) ∧
      evs.head? = some (.setResults (initialResults ["k1", "k2", "k3"])) ∧
      (initialResults ["k1", "k2", "k3"]).map Result.keyword = ["k1", "k2", "k3"] ∧
      (∀ r ∈ initialResults ["k1", "k2", "k3"], r.status = .loading) ∧
      evs.length = 2 * (["k1", "k2", "k3"] : List String).length + 1 ∧
      (∀ n kw, (["k1", "k2", "k3"] : List String)[n]? = some kw →
        evs[2 * n + 1]? = some (.fetchCall kw)) ∧
      (∀ n s, evs[2 * n + 2]? = some (.setResults s) →
        ∀ r ∈ s, r.keyword ∈ (["k1", "k2", "k3"] : List String).take (n + 1) →
          terminal r.status = true) :=
  batch_sequencing cfgEx ["k1", "k2", "k3"] oracleOk (by decide) (by decide) (by decide)

lemma initialResults_loading (kws : List String) :
    ∀ r ∈ initialResults kws, r.status = .loading := by
  intro r hr
  rcases List.mem_map.mp hr with ⟨k, _, hk2⟩
  rw [← hk2]
  rfl

lemma initialResults_map_keyword (kws : List String) :
    (initialResults kws).map Result.keyword = kws := by
  rw [initialResults, List.map_map]
  have hcomp : Result.keyword ∘ mkLoading = id := by
    funext k
    rfl
  rw [hcomp, List.map_id]

lemma updateResults_terminal_notin (results : List Result) (kw : String)
    (rest : List String) (r0 : Result) (h0 : r0.keyword = kw) (hkw : kw ∉ rest)
    (hres : ∀ r ∈ results, terminal r.status = true → r.keyword ∉ kw :: rest) :
    ∀ x ∈ updateResults results kw r0, terminal x.status = true → x.keyword ∉ rest := by
  intro x hx hxt
  rcases List.mem_map.mp hx with ⟨y, hy, hxy⟩
  by_cases hyk : (y.keyword == kw) = true
  · rw [if_pos hyk] at hxy
    rw [← hxy, h0]
    exact hkw
  · rw [if_neg hyk] at hxy
    subst hxy
    intro hin
    exact hres y hy hxt (List.mem_cons_of_mem _ hin)

lemma runLoop_preserve (cfg : Config) (oracle : Nat → FetchOutcome) :
    ∀ (kws : List String), kws.Nodup →
      ∀ (i : Nat) (results : List Result),
        (∀ r ∈ results, terminal r.status = true → r.keyword ∉ kws) →
        ∀ (m : Nat) (s : List Result),
          (runLoop cfg oracle kws i results).1[m]? = some (.setResults s) →
          ∀ (j : Nat) (r : Result), results[j]? = some r →
            terminal r.status = true → s[j]? = some r := by
  intro kws
  induction kws with
  | nil => intro _ i results _ m s hev; simp [runLoop] at hev
  | cons kw rest ih =>
    intro hnd i results hres m s hev j r hjr hterm
    have hrk : (r.keyword == kw) = false := by
      rw [beq_eq_false_iff_ne]
      intro he
      exact hres r (List.getElem?_mem hjr) hterm (by rw [he]; exact List.mem_cons_self kw rest)
    have hpres : (updateResults results kw (resolveKeyword cfg kw (oracle i)))[j]? = some r := by
      have hnot : ¬ ((r.keyword == kw) = true) := by simp [hrk]
      rw [updateResults_getElem?, hjr, Option.map_some', if_neg hnot]
    have hres2 := updateResults_terminal_notin results kw rest
      (resolveKeyword cfg kw (oracle i)) (resolveKeyword_keyword cfg kw (oracle i))
      (List.nodup_cons.mp hnd).1 hres
    cases m with
    | zero => simp [runLoop] at hev
    | succ m =>
      cases m with
      | zero =>
        simp only [runLoop, List.getElem?_cons_succ, List.getElem?_cons_zero,
          Option.some.injEq, Event.setResults.injEq] at hev
        subst hev
        exact hpres
      | succ m =>
        simp only [runLoop, List.getElem?_cons_succ] at hev
        exact ih (List.nodup_cons.mp hnd).2 (i + 1) _ hres2 m s hev j r hpres hterm

lemma runLoop_mono (cfg : Config) (oracle : Nat → FetchOutcome) :
    ∀ (kws : List String), kws.Nodup →
      ∀ (i : Nat) (results : List Result),
        (∀ r ∈ results, terminal r.status = true → r.keyword ∉ kws) →
        ∀ (a b : Nat) (sa sb : List Result), a ≤ b →
          (runLoop cfg oracle kws i results).1[2 * a + 1]? = some (.setResults sa) →
          (runLoop cfg oracle kws i results).1[2 * b + 1]? = some (.setResults sb) →
          ∀ (j : Nat) (r : Result), sa[j]? = some r →
            terminal r.status = true → sb[j]? = some r := by
  intro kws
  induction kws with
  | nil => intro _ i results _ a b sa sb _ heva; simp [runLoop] at heva
  | cons kw rest ih =>
    intro hnd i results hres a b sa sb hab heva hevb j r hjr hterm
    have hres2 := updateResults_terminal_notin results kw rest
      (resolveKeyword cfg kw (oracle i)) (resolveKeyword_keyword cfg kw (oracle i))
      (List.nodup_cons.mp hnd).1 hres
    cases a with
    | zero =>
      simp only [runLoop, Nat.mul_zero, Nat.zero_add, List.getElem?_cons_succ,
        List.getElem?_cons_zero, Option.some.injEq, Event.setResults.injEq] at heva
      subst heva
      cases b with
      | zero =>
        simp only [runLoop, Nat.mul_zero, Nat.zero_add, List.getElem?_cons_succ,
          List.getElem?_cons_zero, Option.some.injEq, Event.setResults.injEq] at hevb
        subst hevb
        exact hjr
      | succ b =>
        have h2 : 2 * (b + 1) + 1 = 2 * b + 1 + 1 + 1 := by ring
        rw [h2] at hevb
        simp only [runLoop, List.getElem?_cons_succ] at hevb
        exact runLoop_preserve cfg oracle rest (List.nodup_cons.mp hnd).2 (i + 1) _
          hres2 (2 * b + 1) sb hevb j r hjr hterm
    | succ a =>
      cases b with
      | zero => omega
      | succ b =>
        have h2a : 2 * (a + 1) + 1 = 2 * a + 1 + 1 + 1 := by ring
        have h2b : 2 * (b + 1) + 1 = 2 * b + 1 + 1 + 1 := by ring
        rw [h2a] at heva
        rw [h2b] at hevb
        simp only [runLoop, List.getElem?_cons_succ] at heva hevb
        exact ih (List.nodup_cons.mp hnd).2 (i + 1) _ hres2 a b sa sb (by omega)
          heva hevb j r hjr hterm

lemma runLoop_setResults_odd (cfg : Config) (oracle : Nat → FetchOutcome) :
    ∀ (kws : List String) (i : Nat) (results : List Result) (m : Nat) (s : List Result),
      (runLoop cfg oracle kws i results).1[m]? = some (.setResults s) →
      ∃ n, m = 2 * n + 1 := by
  intro kws
  induction kws with
  | nil => intro i results m s hev; simp [runLoop] at hev
  | cons kw rest ih =>
    intro i results m s hev
    cases m with
    | zero => simp [runLoop] at hev
    | succ m =>
      cases m with
      | zero => exact ⟨0, rfl⟩
      | succ m =>
        simp only [runLoop, List.getElem?_cons_succ] at hev
        obtain ⟨n, hn⟩ := ih (i + 1) _ m s hev
        exact ⟨n + 1, by omega⟩

/-- C4 counterexample: a non-success response whose JSON carries the
(present but empty) server message `""` does not yield `""` as the
Outcome's error — JavaScript `||` treats the empty string as falsy,
so the generic message wins. -/
theorem http_error_message_counterexample :
    (resolveKeyword cfgEx "kw" (.httpErr 403 (some ""))).error ≠ some "" ∧
    (resolveKeyword cfgEx "kw" (.httpErr 403 (some ""))).error =
      some "HTTP error! status: 403" := by
  constructor <;> decide

/-- C4 (amended): a non-success HTTP response makes the keyword's
Outcome `failed` (`error` status), carrying the server-reported
message when a non-empty one is present, and otherwise (message
absent or empty) the generic `HTTP error! status: N` message holding
the HTTP status code. -/
theorem http_error_outcome (cfg : Config) (kw : String) (status : Nat)
    (message : Option String) :
    (resolveKeyword cfg kw (.httpErr status message)).status = .error ∧
    (resolveKeyword cfg kw (.httpErr status message)).keyword = kw ∧
    (∀ m, message = some m → m ≠ "" →
      (resolveKeyword cfg kw (.httpErr status message)).error = some m) ∧
    (message = none ∨ message = some "" →
      (resolveKeyword cfg kw (.httpErr status message)).error =
        some ("HTTP error! status: " ++ toString status)) := by
  refine ⟨rfl, rfl, ?_, ?_⟩
  · intro m hm hne
    subst hm
    simp [resolveKeyword, jsOrElse, hne]
  · rintro (hm | hm) <;> subst hm <;> simp [resolveKeyword, jsOrElse]

/-- Witness for C4: a concrete 403 with the non-empty server message
`denied` is carried through verbatim. -/
theorem http_error_outcome_witness :
    (resolveKeyword cfgEx "kw" (.httpErr 403 (some "denied"))).error = some "denied" :=
  (http_error_outcome cfgEx "kw" 403 (some "denied")).2.2.1 "denied" rfl (by decide)

/-- C5 counterexample: with the duplicated keyword list
`["dup", "dup"]` the state update keyed by keyword text collides —
entry 0 reaches the terminal `ng` state after the first request and
is then overwritten by the second request's `error` result. -/
theorem terminal_mutation_counterexample :
    ∃ evs fin s1 s2 r1 r2,
      handleCheck cfgEx ["dup", "dup"] oracleDup = .ok (evs, fin) ∧
      evs[2]? = some (.setResults s1) ∧ s1[0]? = some r1 ∧
      terminal r1.status = true ∧
      evs[4]? = some (.setResults s2) ∧ s2[0]? = some r2 ∧ r2 ≠ r1 := by
  refine ⟨_, _, _, _, _, _, rfl, rfl, rfl, rfl, rfl, rfl, by decide⟩

/-- C5 (amended): for keyword lists without duplicate keyword texts,
once an Outcome has reached a terminal state it is never mutated
again: any entry that is terminal in some emitted state snapshot is
unchanged in every later snapshot of the run. -/
theorem terminal_immutable_nodup (cfg : Config) (kws : List String)
    (oracle : Nat → FetchOutcome) (hnd : kws.Nodup)
    (hk : cfg.apiKey ≠ "") (hc : cfg.cx ≠ "") :
    ∃ evs fin, handleCheck cfg kws oracle = .ok (evs, fin) ∧
      ∀ (a b : Nat) (sa sb : List Result), a ≤ b →
        evs[a]? = some (.setResults sa) → evs[b]? = some (.setResults sb) →
        ∀ (j : Nat) (r : Result), sa[j]? = some r →
          terminal r.status = true → sb[j]? = some r := by
  refine ⟨.setResults (initialResults kws) :: (runLoop cfg oracle kws 0 (initialResults kws)).1,
    (runLoop cfg oracle kws 0 (initialResults kws)).2, ?_, ?_⟩
  · unfold handleCheck
    rw [if_neg]
    simp [hk, hc]
  · intro a b sa sb hab heva hevb j r hjr hterm
    have hres0 : ∀ r ∈ initialResults kws, terminal r.status = true → r.keyword ∉ kws := by
      intro r hr hterm2
      rw [initialResults_loading kws r hr] at hterm2
      simp [terminal] at hterm2
    cases a with
    | zero =>
      simp only [List.getElem?_cons_zero, Option.some.injEq, Event.setResults.injEq] at heva
      subst heva
      rw [initialResults_loading kws r (List.getElem?_mem hjr)] at hterm
      simp [terminal] at hterm
    | succ a =>
      cases b with
      | zero => omega
      | succ b =>
        simp only [List.getElem?_cons_succ] at heva hevb
        obtain ⟨n, hn⟩ := runLoop_setResults_odd cfg oracle kws 0 (initialResults kws) a sa heva
        obtain ⟨p, hp⟩ := runLoop_setResults_odd cfg oracle kws 0 (initialResults kws) b sb hevb
        subst hn hp
        exact runLoop_mono cfg oracle kws hnd 0 (initialResults kws) hres0 n p sa sb
          (by omega) heva hevb j r hjr hterm

/-- Witness for C5: the no-mutation theorem applied to a concrete
duplicate-free two-keyword run. -/
theorem terminal_immutable_nodup_witness :
    ∃ evs fin, handleCheck cfgEx ["a", "b"] oracleOk = .ok (evs, fin) ∧
      ∀ (a b : Nat) (sa sb : List Result), a ≤ b →
        evs[a]? = some (.setResults sa) → evs[b]? = some (.setResults sb) →
        ∀ (j : Nat) (r : Result), sa[j]? = some r →
          terminal r.status = true → sb[j]? = some r :=
  terminal_immutable_nodup cfgEx ["a", "b"] oracleOk (by decide) (by decide) (by decide)

lemma runLoop_fetch_calls (cfg : Config) (oracle : Nat → FetchOutcome) :
    ∀ (kws : List String) (i : Nat) (results : List Result),
      (runLoop cfg oracle kws i results).1.filterMap fetchedKeyword = kws := by
  intro kws
  induction kws with
  | nil => intro i results; rfl
  | cons kw rest ih =>
    intro i results
    simp [runLoop, List.filterMap_cons, fetchedKeyword, ih]

lemma updateResults_map_keyword (results : List Result) (kw : String) (r0 : Result)
    (h0 : r0.keyword = kw) :
    (updateResults results kw r0).map Result.keyword = results.map Result.keyword := by
  rw [updateResults, List.map_map]
  apply List.map_congr_left
  intro x _
  by_cases hxk : x.keyword = kw
  · have hb : (x.keyword == kw) = true := beq_iff_eq.mpr hxk
    simp [Function.comp, hb, h0, hxk]
  · have hb : (x.keyword == kw) = false := beq_eq_false_iff_ne.mpr hxk
    simp [Function.comp, hb]

lemma runLoop_final_map_keyword (cfg : Config) (oracle : Nat → FetchOutcome) :
    ∀ (kws : List String) (i : Nat) (results : List Result),
      (runLoop cfg oracle kws i results).2.map Result.keyword =
        results.map Result.keyword := by
  intro kws
  induction kws with
  | nil => intro i results; rfl
  | cons kw rest ih =>
    intro i results
    simp only [runLoop]
    rw [ih, updateResults_map_keyword results kw _ (resolveKeyword_keyword cfg kw (oracle i))]

lemma runLoop_final_terminal (cfg : Config) (oracle : Nat → FetchOutcome) :
    ∀ (kws : List String) (i : Nat) (results : List Result),
      (∀ r ∈ results, terminal r.status = true ∨ r.keyword ∈ kws) →
      ∀ r ∈ (runLoop cfg oracle kws i results).2, terminal r.status = true := by
  intro kws
  induction kws with
  | nil =>
    intro i results h r hr
    rcases h r hr with ht | hmem
    · exact ht
    · simp at hmem
  | cons kw rest ih =>
    intro i results h r hr
    refine ih (i + 1) _ ?_ r hr
    intro x hx
    rcases List.mem_map.mp hx with ⟨y, hy, hxy⟩
    by_cases hyk : (y.keyword == kw) = true
    · rw [if_pos hyk] at hxy
      rw [← hxy]
      exact Or.inl (resolveKeyword_terminal cfg kw (oracle i))
    · rw [if_neg hyk] at hxy
      subst hxy
      rcases h y hy with ht | hmem
      · exact Or.inl ht
      · rcases List.mem_cons.mp hmem with he | hin
        · exact absurd (beq_iff_eq.mpr he) (by simpa using hyk)
        · exact Or.inr hin

lemma runLoop_final_entry (cfg : Config) (oracle : Nat → FetchOutcome) :
    ∀ (kws : List String), kws.Nodup →
      ∀ (i : Nat) (results : List Result) (j : Nat) (x : Result),
        results[j]? = some x →
        (x.keyword ∉ kws → (runLoop cfg oracle kws i results).2[j]? = some x) ∧
        (∀ (n : Nat) (kw : String), kws[n]? = some kw → x.keyword = kw →
          (runLoop cfg oracle kws i results).2[j]? =
            some (resolveKeyword cfg kw (oracle (i + n)))) := by
  intro kws
  induction kws with
  | nil =>
    intro _ i results j x hx
    exact ⟨fun _ => hx, fun n kw h => by simp at h⟩
  | cons kw rest ih =>
    intro hnd i results j x hx
    have hkwrest : kw ∉ rest := (List.nodup_cons.mp hnd).1
    constructor
    · intro hnin
      have hne : ¬ ((x.keyword == kw) = true) := by
        simp only [beq_iff_eq]
        intro he
        exact hnin (by rw [he]; exact List.mem_cons_self kw rest)
      have hx2 : (updateResults results kw (resolveKeyword cfg kw (oracle i)))[j]? = some x := by
        rw [updateResults_getElem?, hx, Option.map_some', if_neg hne]
      exact (ih (List.nodup_cons.mp hnd).2 (i + 1) _ j x hx2).1
        (fun hin => hnin (List.mem_cons_of_mem _ hin))
    · intro n kw2 hkw2 hxkw
      cases n with
      | zero =>
        simp only [List.getElem?_cons_zero, Option.some.injEq] at hkw2
        subst hxkw
        have hb : (x.keyword == kw) = true := beq_iff_eq.mpr hkw2.symm
        have hx2 : (updateResults results kw (resolveKeyword cfg kw (oracle i)))[j]? =
            some (resolveKeyword cfg kw (oracle i)) := by
          rw [updateResults_getElem?, hx, Option.map_some', if_pos hb]
        have hfin := (ih (List.nodup_cons.mp hnd).2 (i + 1) _ j _ hx2).1
          (by rw [resolveKeyword_keyword]; exact hkwrest)
        rw [← hkw2]
        simpa using hfin
      | succ n =>
        simp only [List.getElem?_cons_succ] at hkw2
        have hin : kw2 ∈ rest := List.getElem?_mem hkw2
        have hne : ¬ ((x.keyword == kw) = true) := by
          simp only [beq_iff_eq]
          intro he
          exact hkwrest (by rw [he.symm.trans hxkw]; exact hin)
        have hx2 : (updateResults results kw (resolveKeyword cfg kw (oracle i)))[j]? = some x := by
          rw [updateResults_getElem?, hx, Option.map_some', if_neg hne]
        have := (ih (List.nodup_cons.mp hnd).2 (i + 1) _ j x hx2).2 n kw2 hkw2 hxkw
        have harith : i + 1 + n = i + (n + 1) := by omega
        rwa [harith] at this

/-- C8: whatever the per-keyword responses (including arbitrary HTTP
and transport failures), a run with valid credentials issues one
request per keyword in list order and every keyword's Outcome reaches
a terminal state — a failure is confined to its own keyword; moreover
for duplicate-free lists each keyword's final Outcome is exactly the
resolution of its own response. -/
theorem batch_failure_isolation (cfg : Config) (kws : List String)
    (oracle : Nat → FetchOutcome) (hk : cfg.apiKey ≠ "") (hc : cfg.cx ≠ "") :
    ∃ evs fin, handleCheck cfg kws oracle = .ok (evs, fin) ∧
      evs.filterMap fetchedKeyword = kws ∧
      fin.map Result.keyword = kws ∧
      (∀ r ∈ fin, terminal r.status = true) ∧
      (kws.Nodup → ∀ (n : Nat) (kw : String), kws[n]? = some kw →
        fin[n]? = some (resolveKeyword cfg kw (oracle n))) := by
  refine ⟨.setResults (initialResults kws) :: (runLoop cfg oracle kws 0 (initialResults kws)).1,
    (runLoop cfg oracle kws 0 (initialResults kws)).2, ?_, ?_, ?_, ?_, ?_⟩
  · unfold handleCheck
    rw [if_neg]
    simp [hk, hc]
  · simp [List.filterMap_cons, fetchedKeyword, runLoop_fetch_calls]
  · rw [runLoop_final_map_keyword, initialResults_map_keyword]
  · apply runLoop_final_terminal
    intro r hr
    rcases List.mem_map.mp hr with ⟨k, hkmem, hk2⟩
    right
    rw [← hk2]
    exact hkmem
  · intro hnd n kw h
    have hx : (initialResults kws)[n]? = some (mkLoading kw) := by
      rw [initialResults, List.getElem?_map, h, Option.map_some']
    have := (runLoop_final_entry cfg oracle kws hnd 0 (initialResults kws) n
      (mkLoading kw) hx).2 n kw h rfl
    simpa using this

/-- Witness for C8: a concrete three-keyword run whose second request
fails with HTTP 403. -/
theorem batch_failure_isolation_witness :
    ∃ evs fin, handleCheck cfgEx ["k1", "k2", "k3"] oracleMixed = .ok (evs, fin) ∧
      evs.filterMap fetchedKeyword = ["k1", "k2", "k3"] ∧
      fin.map Result.keyword = ["k1", "k2", "k3"] ∧
      (∀ r ∈ fin, terminal r.status = true) ∧
      ((["k1", "k2", "k3"] : List String).Nodup →
        ∀ (n : Nat) (kw : String), (["k1", "k2", "k3"] : List String)[n]? = some kw →
          fin[n]? = some (resolveKeyword cfgEx kw (oracleMixed n))) :=
  batch_failure_isolation cfgEx ["k1", "k2", "k3"] oracleMixed
    (by decide) (by decide)

/-- C9: the CSV text starts with the header line
`Keyword,Status,Rank,Domain`; every data row is the quoted keyword
followed by one of exactly two status labels and by the Rank and
Domain fields, the latter two blank whenever the Outcome is not
matched (Outcomes carry rank/domain only when matched, per the data
model); and the export control is disabled whenever some Outcome is
still `loading` (in-progress). -/
theorem export_csv_spec (rs : List Result)
    (hwf : ∀ r ∈ rs, r.status ≠ .ok → r.rank = none ∧ r.domain = none) :
    csvContent rs =
      String.intercalate "\n" ("Keyword,Status,Rank,Domain" :: rs.map csvRow) ∧
    (∀ r ∈ rs, ∃ lbl rankField domainField,
      csvRow r = String.intercalate ","
        ["\"" ++ r.keyword ++ "\"", lbl, rankField, domainField] ∧
      (lbl = "◎ 狙い目" ∨ lbl = "✖ 見送り") ∧
      (r.status = .ok → lbl = "◎ 狙い目") ∧
      (r.status ≠ .ok → lbl = "✖ 見送り" ∧ rankField = "" ∧ domainField = "")) ∧
    ((∃ r ∈ rs, r.status = .loading) → exportDisabled rs = true) := by
  refine ⟨?_, ?_, ?_⟩
  · have hh : String.intercalate "," ["Keyword", "Status", "Rank", "Domain"] =
        "Keyword,Status,Rank,Domain" := by decide
    rw [csvContent, hh]
  · intro r hr
    by_cases hok : r.status = .ok
    · refine ⟨"◎ 狙い目", (r.rank.map toString).getD "", r.domain.getD "", ?_, Or.inl rfl,
        fun _ => rfl, fun hne2 => absurd hok hne2⟩
      have hb : (r.status == .ok) = true := beq_iff_eq.mpr hok
      simp [csvRow, hb]
    · obtain ⟨hrk, hdm⟩ := hwf r hr hok
      refine ⟨"✖ 見送り", "", "", ?_, Or.inr rfl, fun h => absurd h hok,
        fun _ => ⟨rfl, rfl, rfl⟩⟩
      have hb : (r.status == .ok) = false := beq_eq_false_iff_ne.mpr hok
      simp [csvRow, hb, hrk, hdm]
  · rintro ⟨r, hr, hload⟩
    rw [exportDisabled, List.any_eq_true]
    exact ⟨r, hr, by rw [hload]; rfl⟩

/-- Witness for C9: the export theorem applied to a concrete
two-Outcome list. -/
theorem export_csv_spec_witness :
    csvContent rsEx =
      String.intercalate "\n" ("Keyword,Status,Rank,Domain" :: rsEx.map csvRow) ∧
    (∀ r ∈ rsEx, ∃ lbl rankField domainField,
      csvRow r = String.intercalate ","
        ["\"" ++ r.keyword ++ "\"", lbl, rankField, domainField] ∧
      (lbl = "◎ 狙い目" ∨ lbl = "✖ 見送り") ∧
      (r.status = .ok → lbl = "◎ 狙い目") ∧
      (r.status ≠ .ok → lbl = "✖ 見送り" ∧ rankField = "" ∧ domainField = "")) ∧
    ((∃ r ∈ rsEx, r.status = .loading) → exportDisabled rsEx = true) :=
  export_csv_spec rsEx (by decide)

end QAChecker
